import Mathlib

/-!
Verification of the stock/price synchronisation program (seller.py).

The program downloads a vendor inventory spreadsheet, fetches the list of
product identifiers known to the marketplace, reconciles the two into stock
and price update records, and submits them in batches.  The definitions
below are a shallow embedding of the relevant functions of the source:

* pure string processing (`price_conversion`, the quantity mapping inlined
  in `create_stocks`) becomes pure Lean functions;
* Python exceptions (ValueError from `int(...)` and from `range(..., 0)`)
  become `Option`, with `none` marking the raised exception;
* the in-place mutation of the `offer_ids` list performed by
  `create_stocks` is made explicit by returning the final value of that
  list alongside the produced update records (state passing);
* the network is abstracted as a function from the pagination cursor to
  the server response, and the unbounded `while True` pagination loop gets
  explicit fuel;
* the only file-system effect (extraction and removal of `ostatki.xls` in
  `download_stock`) is modelled by threading a record of whether that file
  currently exists.
-/

/-- One row of the vendor spreadsheet, as produced by `download_stock`:
the product code (column `Код`), the raw quantity (column `Количество`)
and the raw price (column `Цена`), all read as strings. -/
structure VendorRecord where
  kod : String
  kolichestvo : String
  tsena : String
  deriving DecidableEq

/-- A stock update record `{"offer_id": ..., "stock": ...}` as built by
`create_stocks`. -/
structure StockUpdate where
  offer_id : String
  stock : Int
  deriving DecidableEq

/-- A price update record as built by `create_prices`. -/
structure PriceUpdate where
  auto_action_enabled : String
  currency_code : String
  offer_id : String
  old_price : String
  price : String
  deriving DecidableEq

/-- The ASCII whitespace set of CPython (Py_ISSPACE): tab through carriage
return, the four separator controls 0x1C-0x1F, and the space. -/
def pyAsciiSpace (c : Char) : Bool :=
  (9 ≤ c.toNat && c.toNat ≤ 13) || (28 ≤ c.toNat && c.toNat ≤ 31) || c.toNat == 32

/-- The non-ASCII whitespace code points CPython treats as spaces
(Py_UNICODE_ISSPACE beyond ASCII): NEL, NBSP, Ogham space mark, the
en-quad..hair-space block, the line and paragraph separators, the narrow
and medium mathematical spaces, and the ideographic space. -/
def pyUnicodeSpace (c : Char) : Bool :=
  c.toNat == 0x85 || c.toNat == 0xA0 || c.toNat == 0x1680 ||
    (0x2000 ≤ c.toNat && c.toNat ≤ 0x200A) ||
    c.toNat == 0x2028 || c.toNat == 0x2029 ||
    c.toNat == 0x202F || c.toNat == 0x205F || c.toNat == 0x3000

/-- The first code points of every run of ten decimal digits in Unicode
category Nd (Unicode 15.0, as bundled with CPython 3.12); each run is the
digits 0-9 of one script, in order, so a character is a decimal digit
exactly when it lies in `[s, s + 9]` for some start `s`, with value
`c - s`. -/
def pyDigitStarts : List Nat :=
  [0x30, 0x660, 0x6F0, 0x7C0, 0x966, 0x9E6, 0xA66, 0xAE6, 0xB66, 0xBE6,
   0xC66, 0xCE6, 0xD66, 0xDE6, 0xE50, 0xED0, 0xF20, 0x1040, 0x1090, 0x17E0,
   0x1810, 0x1946, 0x19D0, 0x1A80, 0x1A90, 0x1B50, 0x1BB0, 0x1C40, 0x1C50,
   0xA620, 0xA8D0, 0xA900, 0xA9D0, 0xA9F0, 0xAA50, 0xABF0, 0xFF10,
   0x104A0, 0x10D30, 0x11066, 0x110F0, 0x11136, 0x111D0, 0x112F0, 0x11450,
   0x114D0, 0x11650, 0x116C0, 0x11730, 0x118E0, 0x11950, 0x11C50, 0x11D50,
   0x11DA0, 0x11F50, 0x16A60, 0x16AC0, 0x16B50, 0x1D7CE, 0x1D7D8, 0x1D7E2,
   0x1D7EC, 0x1D7F6, 0x1E140, 0x1E2F0, 0x1E4F0, 0x1E950, 0x1FBF0]

/-- The decimal value of a Unicode decimal digit (category Nd), `none` for
every other character — CPython's Py_UNICODE_TODECIMAL. -/
def pyDigitVal (c : Char) : Option Nat :=
  (pyDigitStarts.find? (fun s => s ≤ c.toNat && c.toNat ≤ s + 9)).map
    (fun s => c.toNat - s)

/-- CPython's `_PyUnicode_TransformDecimalAndSpaceToASCII`, run by
`int(...)` on a str before parsing: ASCII characters pass through, a
non-ASCII decimal digit becomes the ASCII digit of its value, non-ASCII
whitespace becomes a space, and any other non-ASCII character makes the
conversion fail (CPython substitutes a placeholder that the parser then
rejects, so the observable outcome is the same ValueError). -/
def pyTransform : List Char → Option (List Char)
  | [] => some []
  | c :: cs =>
    let c₂ : Option Char :=
      if c.toNat < 128 then some c
      else
        match pyDigitVal c with
        | some v => some (Char.ofNat (48 + v))
        | none => if pyUnicodeSpace c then some ' ' else none
    match c₂, pyTransform cs with
    | some d, some ds => some (d :: ds)
    | _, _ => none

/-- The digit run after its first digit, per the PEP 515 grammar
`digit (("_")? digit)*`: an underscore must be followed by a digit, and a
trailing underscore is rejected.  Returns the accumulated value and the
unconsumed remainder. -/
def pyDigitsRest : List Char → Nat → Option (Nat × List Char)
  | '_' :: c :: cs, acc =>
    if c.isDigit then pyDigitsRest cs (acc * 10 + (c.toNat - 48)) else none
  | ['_'], _ => none
  | c :: cs, acc =>
    if c.isDigit then pyDigitsRest cs (acc * 10 + (c.toNat - 48))
    else some (acc, c :: cs)
  | [], acc => some (acc, [])

/-- An optional single leading sign, as `int(...)` accepts. -/
def pySignSplit : List Char → Int × List Char
  | '+' :: r => (1, r)
  | '-' :: r => (-1, r)
  | r => (1, r)

/-- Model of the Python builtin `int(...)` on strings, following CPython:
first the Unicode-to-ASCII transform (`pyTransform`), then the base-10
parse of PyLong_FromString — optional whitespace, an optional sign, a
non-empty digit run with PEP 515 underscore grouping, optional trailing
whitespace, and nothing else.  `none` models the raised ValueError. -/
def pyInt (s : String) : Option Int :=
  match pyTransform s.toList with
  | none => none
  | some l =>
    let p := pySignSplit (l.dropWhile pyAsciiSpace)
    match p.2 with
    | [] => none
    | c :: cs =>
      if c.isDigit then
        match pyDigitsRest cs (c.toNat - 48) with
        | none => none
        | some (v, rest) =>
          if rest.dropWhile pyAsciiSpace = [] then some (p.1 * (v : Int)) else none
      else none

/-- The quantity mapping inlined in `create_stocks` (seller.py lines
208-214): the sentinel `">10"` maps to 100, the sentinel `"1"` maps to 0,
anything else is passed to `int(...)`; `none` models the ValueError raised
on a non-integer string. -/
def normalize_stock (count : String) : Option Int :=
  if count = ">10" then some 100
  else if count = "1" then some 0
  else pyInt count

/-- The characters of a list before the first literal period, i.e. the
first element of Python `price.split(".")`. -/
def beforeDot : List Char → List Char
  | [] => []
  | c :: cs => if c = '.' then [] else c :: beforeDot cs

/-- `price_conversion` (seller.py lines 255-268): take the part of the
price string before the first period, then delete every non-digit
character (`re.sub` with the pattern matching any character outside 0-9). -/
def price_conversion (price : String) : String :=
  String.mk ((beforeDot price.toList).filter Char.isDigit)

/-- The loop over `watch_remnants` in `create_stocks` (seller.py lines
206-216).  A record whose code is a member of the current `offer_ids`
contributes one stock record and removes the first occurrence of that code
from `offer_ids` (Python `list.remove`); `none` models the ValueError
raised by `int(...)` on a malformed quantity.  Returns the produced stock
records together with the final value of `offer_ids`. -/
def create_stocksLoop : List VendorRecord → List String →
    Option (List StockUpdate × List String)
  | [], offer_ids => some ([], offer_ids)
  | w :: ws, offer_ids =>
    if w.kod ∈ offer_ids then
      match normalize_stock w.kolichestvo with
      | none => none
      | some st =>
        match create_stocksLoop ws (offer_ids.erase w.kod) with
        | none => none
        | some (stocks, rest) => some (⟨w.kod, st⟩ :: stocks, rest)
    else create_stocksLoop ws offer_ids

/-- `create_stocks` (seller.py lines 185-220): run the matching loop, then
append a zero-stock record for every identifier remaining in `offer_ids`.
The second component is the final value of the caller's `offer_ids` list
(the function mutates it in place in the source). -/
def create_stocks (watch_remnants : List VendorRecord) (offer_ids : List String) :
    Option (List StockUpdate × List String) :=
  match create_stocksLoop watch_remnants offer_ids with
  | none => none
  | some (stocks, rest) => some (stocks ++ rest.map (fun i => ⟨i, 0⟩), rest)

/-- The loop over `watch_remnants` in `create_prices` (seller.py lines
242-251): every record whose code is a member of `offer_ids` contributes
one price record; `offer_ids` is only read, never modified. -/
def create_pricesLoop : List VendorRecord → List String → List PriceUpdate
  | [], _ => []
  | w :: ws, offer_ids =>
    if w.kod ∈ offer_ids then
      ⟨"UNKNOWN", "RUB", w.kod, "0", price_conversion w.tsena⟩ ::
        create_pricesLoop ws offer_ids
    else create_pricesLoop ws offer_ids

/-- `create_prices` (seller.py lines 223-252).  The source performs no
mutating operation on either argument (it only iterates `watch_remnants`
and tests membership in `offer_ids`), so the embedding returns both
arguments unchanged alongside the produced price records. -/
def create_prices (watch_remnants : List VendorRecord) (offer_ids : List String) :
    List PriceUpdate × List VendorRecord × List String :=
  (create_pricesLoop watch_remnants offer_ids, watch_remnants, offer_ids)

/-- Model of the Python builtin `range(start, stop, step)` as the list of
generated indices; `none` models the ValueError raised when `step` is 0.
For a non-zero step the element count is `max 0 (ceil((stop-start)/step))`,
expressed with Euclidean division by the positive value `step` or `-step`. -/
def rangeList (start stop step : Int) : Option (List Int) :=
  if step = 0 then none
  else
    let count : Nat :=
      if 0 < step then ((stop - start + step - 1) / step).toNat
      else ((start - stop + (-step) - 1) / (-step)).toNat
    some ((List.range count).map (fun (k : Nat) => start + step * (k : Int)))

/-- Model of the Python slice `lst[a : b]` for the indices produced inside
`divide`, which are always non-negative (negative-index wrap-around is
unreachable there and is not modelled). -/
def pySlice (lst : List α) (a b : Int) : List α :=
  (lst.drop a.toNat).take (b - a).toNat

/-- `divide` (seller.py lines 271-282): the slices `lst[i : i + n]` for
`i` in `range(0, len(lst), n)`, with the whole generator consumed (as the
call sites do via `list(...)`); `none` models the ValueError raised by
`range` when `n` is 0. -/
def divide (lst : List α) (n : Int) : Option (List (List α)) :=
  match rangeList 0 lst.length n with
  | none => none
  | some idxs => some (idxs.map (fun i => pySlice lst i (i + n)))

/-- Reference chunking function: repeatedly take `n` elements.  Used to
state what `divide` computes for a positive chunk size. -/
def chunksOf (n : Nat) (l : List α) : List (List α) :=
  match l with
  | [] => []
  | x :: xs =>
    if _h : n = 0 then []
    else (x :: xs).take n :: chunksOf n ((x :: xs).drop n)
  termination_by l.length
  decreasing_by simp only [List.length_drop, List.length_cons]; omega

/-- One item of a product-list response: only the `offer_id` field is used
by `get_offer_ids`. -/
structure ProductItem where
  offer_id : String
  deriving DecidableEq

/-- The fields of the `result` object returned by `get_product_list`
(seller.py lines 14-50) that `get_offer_ids` consumes: the page of items,
the reported total and the next-page cursor. -/
structure ProductListResult where
  items : List ProductItem
  total : Int
  last_id : String

/-- The `while True` pagination loop of `get_offer_ids` (seller.py lines
73-81).  The marketplace is abstracted as `server`, mapping the cursor to
the response; `fuel` bounds the number of iterations (`none` means the
source loop has not terminated within `fuel` calls); the last component
counts the `get_product_list` calls issued so far. -/
def get_offer_idsLoop (server : String → ProductListResult) :
    Nat → String → List ProductItem → Nat → Option (List ProductItem × Nat)
  | 0, _, _, _ => none
  | fuel + 1, last_id, product_list, calls =>
    let some_prod := server last_id
    let product_list₂ := product_list ++ some_prod.items
    if some_prod.total = (product_list₂.length : Int) then
      some (product_list₂, calls + 1)
    else
      get_offer_idsLoop server fuel some_prod.last_id product_list₂ (calls + 1)

/-- `get_offer_ids` (seller.py lines 53-85): run the pagination loop from
the empty cursor, then extract the `offer_id` of every accumulated item.
Also reports how many list calls were issued. -/
def get_offer_ids (server : String → ProductListResult) (fuel : Nat) :
    Option (List String × Nat) :=
  (get_offer_idsLoop server fuel "" [] 0).map
    (fun r => (r.1.map ProductItem.offer_id, r.2))

/-- The state of the only file-system resource the program touches:
whether the extracted spreadsheet `ostatki.xls` exists. -/
structure FsState where
  ostatki_exists : Bool
  deriving DecidableEq

/-- `download_stock` (seller.py lines 150-182), with the download and the
spreadsheet parser abstracted: `parseResult` is the outcome of
`pd.read_excel` (`none` models a raised parse exception).  The archive
extraction creates `ostatki.xls`; `os.remove` is executed only on the
straight-line path after a successful parse — there is no try/finally in
the source, so a parse failure propagates with the file still present. -/
def download_stock (parseResult : Option (List VendorRecord)) (s : FsState) :
    Option (List VendorRecord) × FsState :=
  let s₁ : FsState := { s with ostatki_exists := true }
  match parseResult with
  | none => (none, s₁)
  | some recs => (some recs, { s₁ with ostatki_exists := false })

/-- The reconciliation sequence of `main` (seller.py lines 334-343):
`create_stocks` runs first on the fetched `offer_ids` list, mutating it in
place; `create_prices` then runs on the same (now mutated) list.  The
batch submissions do not alter the two produced lists and are omitted. -/
def mainReconcile (offer_ids : List String) (watch_remnants : List VendorRecord) :
    Option (List StockUpdate × List PriceUpdate) :=
  match create_stocks watch_remnants offer_ids with
  | none => none
  | some (stocks, offer_ids₂) =>
    some (stocks, (create_prices watch_remnants offer_ids₂).1)

/-- The vendor record of the end-to-end scenario of spec section 8. -/
def scenarioWatch : VendorRecord :=
  ⟨"123", ">10", "5\x27990.00 руб."⟩

/-- 2500 pairwise distinct identifiers for the pagination scenario. -/
def scenarioIds : List String :=
  (List.range 2500).map (fun k => String.mk (List.replicate k '1'))

/-- The slice of `scenarioIds` between positions `lo` and `hi`, packaged
as product items. -/
def scenarioPage (lo hi : Nat) : List ProductItem :=
  ((scenarioIds.drop lo).take (hi - lo)).map ProductItem.mk

/-- The mock marketplace of the pagination scenario: total 2500, pages of
1000, 1000 and 500 items. -/
def scenarioServer : String → ProductListResult :=
  fun last_id =>
    if last_id = "" then ⟨scenarioPage 0 1000, 2500, "page1"⟩
    else if last_id = "page1" then ⟨scenarioPage 1000 2000, 2500, "page2"⟩
    else ⟨scenarioPage 2000 2500, 2500, "page3"⟩

/-! ## Helper lemmas -/

theorem beforeDot_of_not_mem (l : List Char) (h : '.' ∉ l) : beforeDot l = l := by
  induction l with
  | nil => rfl
  | cons c cs ih =>
    simp only [List.mem_cons, not_or] at h
    have hc : ¬ c = '.' := fun hcc => h.1 hcc.symm
    simp [beforeDot, hc, ih h.2]

/-! ## Claim theorems -/

/-- C1: in the end-to-end scenario of spec section 8 (known identifiers
["123", "124"], one vendor record with code "123", quantity ">10", price
"5990.00 руб." with a thousands separator), the reconciliation sequence of
`main` produces the stock updates {"123" : 100, "124" : 0} but an EMPTY
price update list: `create_stocks` removes the matched identifier "123"
from `offer_ids` in place, and `main` hands the same mutated list to
`create_prices`, so no entry for "123" (and none for "124") is produced —
the claimed price update [{"offer_id" : "123", "price" : "5990", ...}]
does not appear. -/
theorem main_scenario_updates :
    mainReconcile ["123", "124"] [scenarioWatch] =
      some ([⟨"123", 100⟩, ⟨"124", 0⟩], []) := by decide

/-- C4 counterexample: when the spreadsheet parse fails, `download_stock`
returns with the extracted file still present — the claimed cleanup on the
parse-failure exit path does not happen (there is no try/finally around
`pd.read_excel`; `os.remove` is only reached after a successful parse). -/
theorem download_stock_keeps_file_on_parse_failure :
    (download_stock none ⟨false⟩).2.ostatki_exists = true := rfl

/-- C4 amended: `download_stock` deletes the temporary extracted
spreadsheet before returning on the successful path, but on a parse
failure the exception propagates with the extracted file left in place. -/
theorem download_stock_cleanup_paths :
    ∀ (recs : List VendorRecord) (s t : FsState),
      (download_stock (some recs) s).2.ostatki_exists = false ∧
        (download_stock none t).2.ostatki_exists = true :=
  fun _ _ _ => ⟨rfl, rfl⟩

/-- C5 counterexample: `divide` does not fail for every non-positive size:
at size -1 it raises nothing and yields zero chunks (Python
`range(0, len, -1)` is empty; only step 0 raises ValueError). -/
theorem divide_negative_size_yields_no_chunks :
    divide (["a"] : List String) (-1) = some [] := by decide

/-- C5 amended: `divide lst n` fails with the InvalidArgument error
(ValueError from `range`) exactly when n = 0; for every negative n it
instead yields no chunks at all, for every input list. -/
theorem divide_error_iff_size_zero :
    ∀ (l : List String) (n : Int),
      (divide l n = none ↔ n = 0) ∧ (n < 0 → divide l n = some []) := by
  intro l n
  constructor
  · constructor
    · intro h
      by_contra hn
      simp [divide, rangeList, hn] at h
    · intro h
      simp [divide, rangeList, h]
  · intro hneg
    have hne : ¬ n = 0 := by omega
    have hnpos : ¬ (0 : Int) < n := by omega
    have hm : (0 : Int) < -n := by omega
    have hcast : (0 : Int) ≤ (l.length : Int) := Int.ofNat_nonneg _
    have hle : (0 : Int) - (l.length : Int) + (-n) - 1 ≤ (-n) - 1 := by omega
    have hz : ((0 : Int) - (l.length : Int) + (-n) - 1) / (-n) ≤ 0 := by
      calc ((0 : Int) - (l.length : Int) + (-n) - 1) / (-n)
          ≤ ((-n) - 1) / (-n) := Int.ediv_le_ediv hm hle
        _ = 0 := Int.ediv_eq_zero_of_lt (by omega) (by omega)
    have htn : (((0 : Int) - (l.length : Int) + (-n) - 1) / (-n)).toNat = 0 :=
      Int.toNat_eq_zero.mpr hz
    have hr : rangeList 0 (l.length : Int) n = some [] := by
      simp only [rangeList, if_neg hne, if_neg hnpos]
      rw [htn]
      simp
    simp [divide, hr]

/-- C5 witness: at size 0 `divide` fails, and at the negative size -2 it
yields no chunks. -/
theorem divide_error_iff_size_zero_witness :
    divide (["a", "b"] : List String) 0 = none ∧
      divide (["a", "b"] : List String) (-2) = some [] :=
  ⟨(divide_error_iff_size_zero ["a", "b"] 0).1.mpr rfl,
   (divide_error_iff_size_zero ["a", "b"] (-2)).2 (by decide)⟩

/-- C7: the quantity mapping of `create_stocks` sends the sentinel ">10"
to 100 and the sentinel "1" to 0; every other string that `int(...)`
accepts — per the CPython semantics embedded in `pyInt`: optional Unicode
whitespace, an optional sign, a non-empty run of Unicode decimal digits
with PEP 515 underscore grouping, such as "7", "1_0" or "٧" — is mapped
to its parsed value, and every other string that `int(...)` rejects
raises the ParseError (modelled as `none`). -/
theorem normalize_stock_spec :
    normalize_stock ">10" = some 100 ∧ normalize_stock "1" = some 0 ∧
      normalize_stock "7" = some 7 ∧
      (∀ s n, s ≠ ">10" → s ≠ "1" → pyInt s = some n → normalize_stock s = some n) ∧
      (∀ s, s ≠ ">10" → s ≠ "1" → pyInt s = none → normalize_stock s = none) := by
  refine ⟨by decide, by decide, by decide, ?_, ?_⟩
  · intro s n h1 h2 h3
    unfold normalize_stock
    rw [if_neg h1, if_neg h2]
    exact h3
  · intro s h1 h2 h3
    unfold normalize_stock
    rw [if_neg h1, if_neg h2]
    exact h3

/-- C7 witness: the generic integer branch on the plain "7", on the
underscore-grouped "1_0", and on the Arabic-Indic digit "٧" (all parsed
by `int(...)`), and the failure branch on "abc". -/
theorem normalize_stock_spec_witness :
    normalize_stock "7" = some 7 ∧ normalize_stock "1_0" = some 10 ∧
      normalize_stock "٧" = some 7 ∧ normalize_stock "abc" = none :=
  ⟨normalize_stock_spec.2.2.2.1 "7" 7 (by decide) (by decide) (by decide),
   normalize_stock_spec.2.2.2.1 "1_0" 10 (by decide) (by decide) (by decide),
   normalize_stock_spec.2.2.2.1 "٧" 7 (by decide) (by decide) (by decide),
   normalize_stock_spec.2.2.2.2 "abc" (by decide) (by decide) (by decide)⟩

/-- C9: for every price string with at least one digit before the first
period, `price_conversion` returns a non-empty string all of whose
characters are digits; and on a string that is already all digits it is
the identity (hence idempotent on normalized outputs). -/
theorem price_conversion_digits :
    ∀ s : String,
      ((∃ c ∈ beforeDot s.toList, c.isDigit) →
        price_conversion s ≠ "" ∧ ∀ c ∈ (price_conversion s).toList, c.isDigit) ∧
      ((∀ c ∈ s.toList, c.isDigit) → price_conversion s = s) := by
  intro s
  have hrep : (price_conversion s).toList = (beforeDot s.toList).filter Char.isDigit := rfl
  constructor
  · rintro ⟨c, hc, hd⟩
    constructor
    · intro hemp
      have h0 : (beforeDot s.toList).filter Char.isDigit = [] := by
        rw [← hrep, hemp]
        rfl
      have : c ∈ (beforeDot s.toList).filter Char.isDigit :=
        List.mem_filter.mpr ⟨hc, hd⟩
      rw [h0] at this
      simp at this
    · intro c₂ hc₂
      rw [hrep] at hc₂
      exact (List.mem_filter.mp hc₂).2
  · intro hall
    have hnd : '.' ∉ s.toList := by
      intro hmem
      have := hall '.' hmem
      simp [Char.isDigit] at this
    have h1 : beforeDot s.toList = s.toList := beforeDot_of_not_mem _ hnd
    have h2 : (s.toList).filter Char.isDigit = s.toList :=
      List.filter_eq_self.mpr (fun a ha => hall a ha)
    show String.mk ((beforeDot s.toList).filter Char.isDigit) = s
    rw [h1, h2]
    exact rfl

/-- C9 witness: the spec example "5990.00 руб." (with apostrophe
thousands separator) normalizes to a non-empty digit string, and the
already-normalized "5990" is fixed. -/
theorem price_conversion_digits_witness :
    (price_conversion "5\x27990.00 руб." ≠ "" ∧
      ∀ c ∈ (price_conversion "5\x27990.00 руб.").toList, c.isDigit) ∧
      price_conversion "5990" = "5990" :=
  ⟨(price_conversion_digits "5\x27990.00 руб.").1 (by decide),
   (price_conversion_digits "5990").2 (by decide)⟩

theorem create_stocksLoop_perm :
    ∀ (V : List VendorRecord) (ids : List String) (st : List StockUpdate)
      (rem : List String),
      create_stocksLoop V ids = some (st, rem) →
      (st.map StockUpdate.offer_id ++ rem).Perm ids := by
  intro V
  induction V with
  | nil =>
    intro ids st rem h
    simp only [create_stocksLoop, Option.some.injEq, Prod.mk.injEq] at h
    obtain ⟨h1, h2⟩ := h
    subst h1; subst h2
    simp
  | cons w ws ih =>
    intro ids st rem h
    simp only [create_stocksLoop] at h
    by_cases hm : w.kod ∈ ids
    · rw [if_pos hm] at h
      cases hq : normalize_stock w.kolichestvo with
      | none => rw [hq] at h; simp at h
      | some q =>
        rw [hq] at h
        cases hrec : create_stocksLoop ws (ids.erase w.kod) with
        | none => rw [hrec] at h; simp at h
        | some p =>
          obtain ⟨st₂, rem₂⟩ := p
          rw [hrec] at h
          simp only [Option.some.injEq, Prod.mk.injEq] at h
          obtain ⟨h1, h2⟩ := h
          subst h1; subst h2
          have hp := ih (ids.erase w.kod) st₂ rem₂ hrec
          simp only [List.map_cons, List.cons_append]
          exact (hp.cons w.kod).trans (List.perm_cons_erase hm).symm
    · rw [if_neg hm] at h
      exact ih ids st rem h

theorem create_stocksLoop_codes :
    ∀ (V : List VendorRecord) (ids : List String) (st : List StockUpdate)
      (rem : List String),
      create_stocksLoop V ids = some (st, rem) →
      ∀ e ∈ st, e.offer_id ∈ V.map VendorRecord.kod := by
  intro V
  induction V with
  | nil =>
    intro ids st rem h
    simp only [create_stocksLoop, Option.some.injEq, Prod.mk.injEq] at h
    obtain ⟨h1, _⟩ := h
    subst h1
    intro e he
    simp at he
  | cons w ws ih =>
    intro ids st rem h
    simp only [create_stocksLoop] at h
    by_cases hm : w.kod ∈ ids
    · rw [if_pos hm] at h
      cases hq : normalize_stock w.kolichestvo with
      | none => rw [hq] at h; simp at h
      | some q =>
        rw [hq] at h
        cases hrec : create_stocksLoop ws (ids.erase w.kod) with
        | none => rw [hrec] at h; simp at h
        | some p =>
          obtain ⟨st₂, rem₂⟩ := p
          rw [hrec] at h
          simp only [Option.some.injEq, Prod.mk.injEq] at h
          obtain ⟨h1, _⟩ := h
          subst h1
          intro e he
          rcases List.mem_cons.mp he with he | he
          · subst he; simp
          · exact List.mem_cons_of_mem _ (ih _ _ _ hrec e he)
    · rw [if_neg hm] at h
      intro e he
      exact List.mem_cons_of_mem _ (ih _ _ _ h e he)

theorem create_stocksLoop_first_match :
    ∀ (V : List VendorRecord) (ids : List String) (k : String) (w : VendorRecord)
      (st : List StockUpdate) (rem : List String),
      k ∈ ids →
      V.find? (fun v => v.kod == k) = some w →
      create_stocksLoop V ids = some (st, rem) →
      ∃ q, normalize_stock w.kolichestvo = some q ∧ (⟨k, q⟩ : StockUpdate) ∈ st := by
  intro V
  induction V with
  | nil =>
    intro ids k w st rem _ hf _
    simp at hf
  | cons w' ws ih =>
    intro ids k w st rem hk hf h
    simp only [create_stocksLoop] at h
    by_cases hek : w'.kod = k
    · rw [List.find?_cons_of_pos _ (by simp [hek])] at hf
      have hw : w = w' := by simpa using hf.symm
      subst hw
      have hm : w.kod ∈ ids := hek ▸ hk
      rw [if_pos hm] at h
      cases hq : normalize_stock w.kolichestvo with
      | none => rw [hq] at h; simp at h
      | some q =>
        rw [hq] at h
        cases hrec : create_stocksLoop ws (ids.erase w.kod) with
        | none => rw [hrec] at h; simp at h
        | some p =>
          obtain ⟨st₂, rem₂⟩ := p
          rw [hrec] at h
          simp only [Option.some.injEq, Prod.mk.injEq] at h
          obtain ⟨h1, _⟩ := h
          subst h1
          exact ⟨q, rfl, by rw [← hek]; exact List.mem_cons_self _ _⟩
    · rw [List.find?_cons_of_neg _ (by simp [hek])] at hf
      by_cases hm : w'.kod ∈ ids
      · rw [if_pos hm] at h
        cases hq : normalize_stock w'.kolichestvo with
        | none => rw [hq] at h; simp at h
        | some q =>
          rw [hq] at h
          cases hrec : create_stocksLoop ws (ids.erase w'.kod) with
          | none => rw [hrec] at h; simp at h
          | some p =>
            obtain ⟨st₂, rem₂⟩ := p
            rw [hrec] at h
            simp only [Option.some.injEq, Prod.mk.injEq] at h
            obtain ⟨h1, _⟩ := h
            subst h1
            have hk₂ : k ∈ ids.erase w'.kod :=
              (List.mem_erase_of_ne (fun hc => hek hc.symm)).mpr hk
            obtain ⟨q₂, hq₂, hmem⟩ := ih _ k w st₂ rem₂ hk₂ hf hrec
            exact ⟨q₂, hq₂, List.mem_cons_of_mem _ hmem⟩
      · rw [if_neg hm] at h
        exact ih _ k w st rem hk hf h

theorem create_stocksLoop_rem :
    ∀ (V : List VendorRecord) (ids : List String) (st : List StockUpdate)
      (rem : List String),
      ids.Nodup →
      create_stocksLoop V ids = some (st, rem) →
      rem = ids.filter (fun k => decide (k ∉ V.map VendorRecord.kod)) := by
  intro V
  induction V with
  | nil =>
    intro ids st rem _ h
    simp only [create_stocksLoop, Option.some.injEq, Prod.mk.injEq] at h
    obtain ⟨_, h2⟩ := h
    subst h2
    simp
  | cons w ws ih =>
    intro ids st rem hnd h
    simp only [create_stocksLoop] at h
    by_cases hm : w.kod ∈ ids
    · rw [if_pos hm] at h
      cases hq : normalize_stock w.kolichestvo with
      | none => rw [hq] at h; simp at h
      | some q =>
        rw [hq] at h
        cases hrec : create_stocksLoop ws (ids.erase w.kod) with
        | none => rw [hrec] at h; simp at h
        | some p =>
          obtain ⟨st₂, rem₂⟩ := p
          rw [hrec] at h
          simp only [Option.some.injEq, Prod.mk.injEq] at h
          obtain ⟨_, h2⟩ := h
          subst h2
          have := ih (ids.erase w.kod) st₂ _ (hnd.erase w.kod) hrec
          rw [this, hnd.erase_eq_filter w.kod, List.filter_filter]
          apply List.filter_congr
          intro x _
          by_cases hxw : x = w.kod
          · simp [hxw]
          · by_cases hxc : x ∈ List.map VendorRecord.kod ws
            · simp [hxw, hxc]
            · simp [hxw, hxc]
    · rw [if_neg hm] at h
      rw [ih ids st rem hnd h]
      apply List.filter_congr
      intro x hx
      have hxne : ¬ x = w.kod := fun hc => hm (hc ▸ hx)
      simp [List.mem_cons, hxne]

theorem map_offer_id_zero (rem : List String) :
    (rem.map (fun i => (⟨i, 0⟩ : StockUpdate))).map StockUpdate.offer_id = rem := by
  induction rem with
  | nil => rfl
  | cons a l ih => simp only [List.map_cons, ih]

theorem create_stocks_cases :
    ∀ (V : List VendorRecord) (K : List String) (st : List StockUpdate)
      (rem : List String),
      create_stocks V K = some (st, rem) →
      ∃ st₀, create_stocksLoop V K = some (st₀, rem) ∧
        st = st₀ ++ rem.map (fun i => ⟨i, 0⟩) := by
  intro V K st rem h
  unfold create_stocks at h
  cases hloop : create_stocksLoop V K with
  | none => rw [hloop] at h; simp at h
  | some p =>
    obtain ⟨st₀, rem₀⟩ := p
    rw [hloop] at h
    simp only [Option.some.injEq, Prod.mk.injEq] at h
    obtain ⟨h1, h2⟩ := h
    rw [h2] at h1
    exact ⟨st₀, by rw [h2], h1.symm⟩

theorem create_stocks_perm :
    ∀ (V : List VendorRecord) (K : List String) (st : List StockUpdate)
      (rem : List String),
      create_stocks V K = some (st, rem) →
      (st.map StockUpdate.offer_id).Perm K := by
  intro V K st rem h
  obtain ⟨st₀, hloop, hst⟩ := create_stocks_cases V K st rem h
  subst hst
  have hperm := create_stocksLoop_perm V K st₀ rem hloop
  rw [List.map_append, map_offer_id_zero]
  exact hperm

theorem create_pricesLoop_sublist :
    ∀ (V : List VendorRecord) (ids : List String),
      ((create_pricesLoop V ids).map PriceUpdate.offer_id).Sublist
        (V.map VendorRecord.kod) := by
  intro V ids
  induction V with
  | nil => simp [create_pricesLoop]
  | cons w ws ih =>
    simp only [create_pricesLoop, List.map_cons]
    by_cases hm : w.kod ∈ ids
    · rw [if_pos hm]
      simpa using ih.cons₂ w.kod
    · rw [if_neg hm]
      exact ih.cons w.kod

/-- C2: for every vendor record list V and duplicate-free known-identifier
list K, when `create_stocks` returns (no quantity raised a ValueError),
its stock list mentions exactly the identifiers of K, each exactly once
(its offer-id list is a permutation of K, so no duplicate, no omission,
and no identifier outside K — in particular vendor records whose code is
not in K contribute nothing); every identifier of K with no vendor record
gets stock 0, and every identifier of K whose first vendor record is w
gets the quantity mapped from w. -/
theorem create_stocks_covers_known_ids :
    ∀ (V : List VendorRecord) (K : List String) (st : List StockUpdate)
      (rem : List String),
      K.Nodup → create_stocks V K = some (st, rem) →
      (st.map StockUpdate.offer_id).Perm K ∧
        (∀ k ∈ K, k ∉ V.map VendorRecord.kod → (⟨k, 0⟩ : StockUpdate) ∈ st) ∧
        (∀ k ∈ K, ∀ w, V.find? (fun v => v.kod == k) = some w →
          ∃ q, normalize_stock w.kolichestvo = some q ∧ (⟨k, q⟩ : StockUpdate) ∈ st) := by
  intro V K st rem hK h
  obtain ⟨st₀, hloop, hst⟩ := create_stocks_cases V K st rem h
  refine ⟨create_stocks_perm V K st rem h, ?_, ?_⟩
  · intro k hk hcodes
    have hkst : k ∈ st.map StockUpdate.offer_id :=
      ((create_stocks_perm V K st rem h).mem_iff).mpr hk
    subst hst
    rw [List.map_append, map_offer_id_zero, List.mem_append] at hkst
    rcases hkst with hkst | hkst
    · obtain ⟨e, he, heq⟩ := List.mem_map.mp hkst
      exact absurd (heq ▸ create_stocksLoop_codes V K st₀ rem hloop e he) hcodes
    · exact List.mem_append_right _ (List.mem_map.mpr ⟨k, hkst, rfl⟩)
  · intro k hk w hfind
    obtain ⟨q, hq, hmem⟩ :=
      create_stocksLoop_first_match V K k w st₀ rem hk hfind hloop
    exact ⟨q, hq, hst ▸ List.mem_append_left _ hmem⟩

/-- C2 witness: with vendor record code "123" quantity ">10" and known
identifiers ["123", "124"], the produced offer-id list is a permutation
of the known identifiers. -/
theorem create_stocks_covers_known_ids_witness :
    (([⟨"123", (100 : Int)⟩, ⟨"124", 0⟩] : List StockUpdate).map
      StockUpdate.offer_id).Perm ["123", "124"] :=
  (create_stocks_covers_known_ids [⟨"123", ">10", "x"⟩] ["123", "124"]
    [⟨"123", 100⟩, ⟨"124", 0⟩] ["124"] (by decide) (by decide)).1

/-- C3 counterexample: identifiers can repeat in the update lists.  Two
vendor rows with the same code "123" and known identifiers ["123"] produce
two price updates for "123"; and known-identifier list ["123", "123"]
with one vendor row for "123" produces two stock updates for "123" (one
matched, one zero-filled). -/
theorem duplicate_inputs_duplicate_updates :
    ¬ ((create_prices [⟨"123", ">10", "100"⟩, ⟨"123", ">10", "100"⟩] ["123"]).1.map
        PriceUpdate.offer_id).Nodup ∧
      create_stocks [⟨"123", ">10", "x"⟩] ["123", "123"] =
        some ([⟨"123", 100⟩, ⟨"123", 0⟩], ["123"]) ∧
      ¬ (([⟨"123", (100 : Int)⟩, ⟨"123", 0⟩] : List StockUpdate).map
        StockUpdate.offer_id).Nodup := by
  refine ⟨by decide, by decide, by decide⟩

/-- C3 amended: each identifier appears at most once in the stock-update
list provided the known-identifier list is duplicate-free, and at most
once in the price-update list provided additionally the vendor records'
codes are duplicate-free (duplicate vendor rows with a known code produce
duplicate price entries; a duplicated known identifier produces duplicate
stock entries). -/
theorem update_lists_nodup :
    ∀ (V : List VendorRecord) (K : List String) (st : List StockUpdate)
      (rem : List String),
      (K.Nodup → create_stocks V K = some (st, rem) →
        (st.map StockUpdate.offer_id).Nodup) ∧
      ((V.map VendorRecord.kod).Nodup →
        ((create_prices V K).1.map PriceUpdate.offer_id).Nodup) := by
  intro V K st rem
  constructor
  · intro hK h
    exact ((create_stocks_perm V K st rem h).nodup_iff).mpr hK
  · intro hV
    exact (create_pricesLoop_sublist V K).nodup hV

/-- C3 witness: duplicate-free inputs give duplicate-free update lists in
the scenario with one vendor record "123" and identifiers ["123", "124"]. -/
theorem update_lists_nodup_witness :
    (([⟨"123", (100 : Int)⟩, ⟨"124", 0⟩] : List StockUpdate).map
      StockUpdate.offer_id).Nodup ∧
      ((create_prices [⟨"123", ">10", "x"⟩] ["123"]).1.map
        PriceUpdate.offer_id).Nodup :=
  ⟨(update_lists_nodup [⟨"123", ">10", "x"⟩] ["123", "124"]
      [⟨"123", 100⟩, ⟨"124", 0⟩] ["124"]).1 (by decide) (by decide),
   (update_lists_nodup [⟨"123", ">10", "x"⟩] ["123"] [] []).2 (by decide)⟩

/-- C10: `create_stocks` leaves in the caller's `offer_ids` list (its
in-place-mutated argument, here the second returned component) exactly
the known identifiers whose code appears in no vendor record, in their
original order, provided the known-identifier list is duplicate-free;
`create_prices` returns both of its arguments unchanged (the source never
mutates them). -/
theorem create_stocks_frame :
    ∀ (V : List VendorRecord) (K : List String) (st : List StockUpdate)
      (rem : List String),
      (K.Nodup → create_stocks V K = some (st, rem) →
        rem = K.filter (fun k => decide (k ∉ V.map VendorRecord.kod))) ∧
      (create_prices V K).2 = (V, K) := by
  intro V K st rem
  constructor
  · intro hK h
    obtain ⟨st₀, hloop, _⟩ := create_stocks_cases V K st rem h
    exact create_stocksLoop_rem V K st₀ rem hK hloop
  · rfl

/-- C10 witness: after the scenario run the mutated identifier list holds
exactly the unmatched identifier "124". -/
theorem create_stocks_frame_witness :
    (["124"] : List String) = (["123", "124"] : List String).filter
      (fun k => decide (k ∉ ([⟨"123", ">10", "x"⟩] : List VendorRecord).map
        VendorRecord.kod)) :=
  (create_stocks_frame [⟨"123", ">10", "x"⟩] ["123", "124"]
    [⟨"123", 100⟩, ⟨"124", 0⟩] ["124"]).1 (by decide) (by decide)

theorem chunksOf_nil (n : Nat) : chunksOf n ([] : List α) = [] := by
  rw [chunksOf]

theorem chunksOf_cons (n : Nat) (hn : 0 < n) (x : α) (xs : List α) :
    chunksOf n (x :: xs) =
      (x :: xs).take n :: chunksOf n ((x :: xs).drop n) := by
  rw [chunksOf]
  exact dif_neg (Nat.pos_iff_ne_zero.mp hn)

theorem chunksOf_flatten (n : Nat) (hn : 0 < n) :
    ∀ (len : Nat) (l : List α), l.length ≤ len → (chunksOf n l).flatten = l := by
  intro len
  induction len with
  | zero =>
    intro l hl
    have h0 : l = [] := List.eq_nil_of_length_eq_zero (Nat.le_zero.mp hl)
    subst h0
    rw [chunksOf_nil]
    rfl
  | succ m ih =>
    intro l hl
    cases l with
    | nil => rw [chunksOf_nil]; rfl
    | cons x xs =>
      rw [chunksOf_cons n hn, List.flatten_cons]
      have hdrop : ((x :: xs).drop n).length ≤ m := by
        simp only [List.length_drop, List.length_cons]
        simp only [List.length_cons] at hl
        omega
      rw [ih _ hdrop, List.take_append_drop]

theorem chunksOf_ne_nil (n : Nat) (l : List α) (h : chunksOf n l ≠ []) : l ≠ [] := by
  intro h0
  subst h0
  exact h (chunksOf_nil n)

theorem chunksOf_dropLast (n : Nat) (hn : 0 < n) :
    ∀ (len : Nat) (l : List α), l.length ≤ len →
      ∀ c ∈ (chunksOf n l).dropLast, c.length = n := by
  intro len
  induction len with
  | zero =>
    intro l hl
    have h0 : l = [] := List.eq_nil_of_length_eq_zero (Nat.le_zero.mp hl)
    subst h0
    rw [chunksOf_nil]
    intro c hc
    simp at hc
  | succ m ih =>
    intro l hl
    cases l with
    | nil =>
      rw [chunksOf_nil]
      intro c hc
      simp at hc
    | cons x xs =>
      rw [chunksOf_cons n hn]
      cases hrest : chunksOf n ((x :: xs).drop n) with
      | nil =>
        intro c hc
        simp at hc
      | cons c₀ cs =>
        rw [List.dropLast_cons_of_ne_nil (by simp)]
        intro c hc
        have hdlen : ((x :: xs).drop n).length ≤ m := by
          simp only [List.length_drop, List.length_cons]
          simp only [List.length_cons] at hl
          omega
        rcases List.mem_cons.mp hc with hc | hc
        · subst hc
          have hne : (x :: xs).drop n ≠ [] :=
            chunksOf_ne_nil n _ (by rw [hrest]; simp)
          have hlen : n < (x :: xs).length := by
            have := List.length_pos.mpr hne
            simp only [List.length_drop] at this
            omega
          simp only [List.length_cons] at hlen
          simp only [List.length_take, List.length_cons]
          omega
        · rw [← hrest] at hc
          exact ih _ hdlen c hc

theorem divide_pos (l : List α) (n : Nat) (hn : 0 < n) :
    divide l (n : Int) = some ((List.range ((l.length + n - 1) / n)).map
      (fun k => (l.drop (n * k)).take n)) := by
  have hne : ¬ ((n : Int) = 0) := by exact_mod_cast Nat.pos_iff_ne_zero.mp hn
  have hpos : (0 : Int) < (n : Int) := by exact_mod_cast hn
  have hc : (((l.length : Int) - 0 + n - 1) / (n : Int)).toNat =
      (l.length + n - 1) / n := by
    have h1 : ((l.length : Int) - 0 + n - 1) = ((l.length + n - 1 : Nat) : Int) := by
      omega
    rw [h1, ← Int.ofNat_ediv, Int.toNat_natCast]
  have hr : rangeList 0 (l.length : Int) (n : Int) =
      some ((List.range ((l.length + n - 1) / n)).map
        (fun (k : Nat) => 0 + (n : Int) * (k : Int))) := by
    simp only [rangeList, if_neg hne, if_pos hpos]
    rw [hc]
  unfold divide
  rw [hr]
  simp only [Option.some.injEq]
  rw [List.map_map]
  apply List.map_congr_left
  intro k _
  show pySlice l (0 + (n : Int) * k) ((0 + (n : Int) * k) + n) = (l.drop (n * k)).take n
  unfold pySlice
  have ha : ((0 : Int) + (n : Int) * k).toNat = n * k := by
    have : ((0 : Int) + (n : Int) * k) = ((n * k : Nat) : Int) := by push_cast; ring
    rw [this, Int.toNat_natCast]
  have hb : (((0 : Int) + (n : Int) * k) + n - ((0 : Int) + (n : Int) * k)).toNat = n := by
    have : (((0 : Int) + (n : Int) * k) + n - ((0 : Int) + (n : Int) * k)) = ((n : Nat) : Int) := by
      ring
    rw [this, Int.toNat_natCast]
  rw [ha, hb]

theorem range_chunksOf (n : Nat) (hn : 0 < n) :
    ∀ (len : Nat) (l : List α), l.length ≤ len →
      (List.range ((l.length + n - 1) / n)).map
        (fun k => (l.drop (n * k)).take n) = chunksOf n l := by
  intro len
  induction len with
  | zero =>
    intro l hl
    have h0 : l = [] := List.eq_nil_of_length_eq_zero (Nat.le_zero.mp hl)
    subst h0
    rw [chunksOf_nil]
    have : ((([] : List α).length + n - 1) / n) = 0 := Nat.div_eq_of_lt (by simp; omega)
    rw [this]
    rfl
  | succ m ih =>
    intro l hl
    cases l with
    | nil =>
      rw [chunksOf_nil]
      have : ((([] : List α).length + n - 1) / n) = 0 := Nat.div_eq_of_lt (by simp; omega)
      rw [this]
      rfl
    | cons x xs =>
      rw [chunksOf_cons n hn]
      have hdlen : ((x :: xs).drop n).length ≤ m := by
        simp only [List.length_drop, List.length_cons]
        simp only [List.length_cons] at hl
        omega
      have hcount : ((x :: xs).length + n - 1) / n =
          (((x :: xs).drop n).length + n - 1) / n + 1 := by
        simp only [List.length_cons, List.length_drop]
        by_cases hle : xs.length + 1 ≤ n
        · have h1 : xs.length + 1 - n = 0 := by omega
          rw [h1]
          have h2 : (0 + n - 1) / n = 0 := Nat.div_eq_of_lt (by omega)
          rw [h2]
          exact Nat.div_eq_of_lt_le (by omega) (by omega)
        · have h1 : xs.length + 1 + n - 1 = (xs.length + 1 - n + n - 1) + n := by omega
          rw [h1, Nat.add_div_right _ hn]
      rw [hcount, List.range_succ_eq_map, List.map_cons, List.map_map]
      have htail : (List.range ((((x :: xs).drop n).length + n - 1) / n)).map
          ((fun k => ((x :: xs).drop (n * k)).take n) ∘ Nat.succ) =
          (List.range ((((x :: xs).drop n).length + n - 1) / n)).map
            (fun k => (((x :: xs).drop n).drop (n * k)).take n) := by
        apply List.map_congr_left
        intro k _
        show ((x :: xs).drop (n * (k + 1))).take n = _
        rw [List.drop_drop]
        rw [Nat.mul_succ]
        rw [Nat.add_comm (n * k) n]
      rw [htail, ih _ hdlen]
      have hhead : ((x :: xs).drop (n * 0)).take n = (x :: xs).take n := by
        simp
      rw [hhead]

theorem divide_eq_chunksOf (l : List α) (n : Nat) (hn : 0 < n) :
    divide l (n : Int) = some (chunksOf n l) := by
  rw [divide_pos l n hn, range_chunksOf n hn l.length l le_rfl]

/-- C8: for every list and every positive chunk size n, the chunks
produced by `divide`, concatenated in order, reproduce the input exactly;
every chunk except possibly the last has length exactly n; and on the
empty input `divide` yields no chunks. -/
theorem divide_chunks_concat :
    ∀ (l : List String) (n : Nat) (cs : List (List String)),
      0 < n → divide l (n : Int) = some cs →
      cs.flatten = l ∧ (∀ c ∈ cs.dropLast, c.length = n) ∧ (l = [] → cs = []) := by
  intro l n cs hn h
  rw [divide_eq_chunksOf l n hn] at h
  have hcs : cs = chunksOf n l := by
    simpa using h.symm
  subst hcs
  refine ⟨chunksOf_flatten n hn l.length l le_rfl,
    chunksOf_dropLast n hn l.length l le_rfl, ?_⟩
  intro h0
  subst h0
  exact chunksOf_nil n

/-- C8 witness: `divide ["a", "b", "c"] 2` yields [["a", "b"], ["c"]],
whose concatenation restores the input and whose non-final chunk has
length 2. -/
theorem divide_chunks_concat_witness :
    ([["a", "b"], ["c"]] : List (List String)).flatten = ["a", "b", "c"] ∧
      (∀ c ∈ ([["a", "b"], ["c"]] : List (List String)).dropLast, c.length = 2) ∧
      ((["a", "b", "c"] : List String) = [] →
        ([["a", "b"], ["c"]] : List (List String)) = []) :=
  divide_chunks_concat ["a", "b", "c"] 2 [["a", "b"], ["c"]] (by decide) (by decide)

theorem get_offer_idsLoop_succ (server : String → ProductListResult)
    (fuel : Nat) (last_id : String) (pl : List ProductItem) (calls : Nat) :
    get_offer_idsLoop server (fuel + 1) last_id pl calls =
      if (server last_id).total = ((pl ++ (server last_id).items).length : Int) then
        some (pl ++ (server last_id).items, calls + 1)
      else
        get_offer_idsLoop server fuel (server last_id).last_id
          (pl ++ (server last_id).items) (calls + 1) := rfl

theorem scenarioIds_length : scenarioIds.length = 2500 := by
  unfold scenarioIds
  rw [List.length_map, List.length_range]

theorem scenarioPage_len1 : (scenarioPage 0 1000).length = 1000 := by
  unfold scenarioPage
  rw [List.length_map, List.length_take, List.length_drop, scenarioIds_length]
  omega

theorem scenarioPage_len2 : (scenarioPage 1000 2000).length = 1000 := by
  unfold scenarioPage
  rw [List.length_map, List.length_take, List.length_drop, scenarioIds_length]
  omega

theorem scenarioPage_len3 : (scenarioPage 2000 2500).length = 500 := by
  unfold scenarioPage
  rw [List.length_map, List.length_take, List.length_drop, scenarioIds_length]
  omega

theorem scenarioServer_1 :
    scenarioServer "" = ⟨scenarioPage 0 1000, 2500, "page1"⟩ := rfl

theorem scenarioServer_2 :
    scenarioServer "page1" = ⟨scenarioPage 1000 2000, 2500, "page2"⟩ := rfl

theorem scenarioServer_3 :
    scenarioServer "page2" = ⟨scenarioPage 2000 2500, 2500, "page3"⟩ := rfl

set_option maxRecDepth 8000 in
theorem scenario_step1 :
    get_offer_idsLoop scenarioServer 10 "" [] 0 =
      get_offer_idsLoop scenarioServer 9 "page1" (scenarioPage 0 1000) 1 := by
  have e := get_offer_idsLoop_succ scenarioServer 9 "" [] 0
  rw [scenarioServer_1] at e
  split at e
  next h =>
    exfalso
    have h2 : (2500 : Int) = ((([] ++ scenarioPage 0 1000).length : Nat) : Int) := h
    rw [List.nil_append, scenarioPage_len1] at h2
    norm_num at h2
  next h =>
    exact e

set_option maxRecDepth 8000 in
theorem scenario_step2 :
    get_offer_idsLoop scenarioServer 9 "page1" (scenarioPage 0 1000) 1 =
      get_offer_idsLoop scenarioServer 8 "page2"
        (scenarioPage 0 1000 ++ scenarioPage 1000 2000) 2 := by
  have e := get_offer_idsLoop_succ scenarioServer 8 "page1" (scenarioPage 0 1000) 1
  rw [scenarioServer_2] at e
  split at e
  next h =>
    exfalso
    have h2 : (2500 : Int) =
        (((scenarioPage 0 1000 ++ scenarioPage 1000 2000).length : Nat) : Int) := h
    rw [List.length_append, scenarioPage_len1, scenarioPage_len2] at h2
    norm_num at h2
  next h =>
    exact e

set_option maxRecDepth 8000 in
theorem scenario_step3 :
    get_offer_idsLoop scenarioServer 8 "page2"
        (scenarioPage 0 1000 ++ scenarioPage 1000 2000) 2 =
      some (scenarioPage 0 1000 ++ scenarioPage 1000 2000 ++ scenarioPage 2000 2500, 3) := by
  have e := get_offer_idsLoop_succ scenarioServer 7 "page2"
    (scenarioPage 0 1000 ++ scenarioPage 1000 2000) 2
  rw [scenarioServer_3] at e
  split at e
  next h =>
    exact e
  next h =>
    exfalso
    apply h
    show (2500 : Int) =
      (((scenarioPage 0 1000 ++ scenarioPage 1000 2000 ++ scenarioPage 2000 2500).length : Nat) : Int)
    rw [List.length_append, List.length_append, scenarioPage_len1,
      scenarioPage_len2, scenarioPage_len3]
    norm_num

theorem map_offer_id_mk (l : List String) :
    (l.map ProductItem.mk).map ProductItem.offer_id = l := by
  induction l with
  | nil => rfl
  | cons a t ih => simp only [List.map_cons, ih]

theorem scenarioPage_ids (lo hi : Nat) :
    (scenarioPage lo hi).map ProductItem.offer_id =
      (scenarioIds.drop lo).take (hi - lo) := by
  unfold scenarioPage
  exact map_offer_id_mk _

theorem scenario_ids_append :
    (scenarioPage 0 1000 ++ scenarioPage 1000 2000 ++ scenarioPage 2000 2500).map
      ProductItem.offer_id = scenarioIds := by
  rw [List.map_append, List.map_append, scenarioPage_ids, scenarioPage_ids,
    scenarioPage_ids]
  norm_num
  have h3 : List.take 500 (List.drop 2000 scenarioIds) =
      List.drop 1000 (List.drop 1000 scenarioIds) := by
    rw [List.drop_drop]
    norm_num
    rw [scenarioIds_length]
  rw [h3, List.take_append_drop, List.take_append_drop]

theorem scenarioIds_nodup : scenarioIds.Nodup := by
  have hinj : Function.Injective (fun k : Nat => String.mk (List.replicate k '1')) := by
    intro a b hab
    have := congrArg (fun s : String => s.data.length) hab
    simpa using this
  exact (List.nodup_range 2500).map hinj

set_option maxRecDepth 8000 in
/-- C6: against the mock marketplace that reports total 2500 and serves
pages of 1000, 1000 and 500 items, the pagination loop of
`get_offer_ids` terminates after exactly 3 list calls, stopping when the
accumulated item count reaches the reported total, and returns all 2500
identifiers with no duplicates. -/
theorem get_offer_ids_pagination :
    get_offer_ids scenarioServer 10 = some (scenarioIds, 3) ∧
      scenarioIds.length = 2500 ∧ scenarioIds.Nodup := by
  refine ⟨?_, scenarioIds_length, scenarioIds_nodup⟩
  unfold get_offer_ids
  rw [scenario_step1, scenario_step2, scenario_step3]
  show some ((scenarioPage 0 1000 ++ scenarioPage 1000 2000 ++
    scenarioPage 2000 2500).map ProductItem.offer_id, 3) = some (scenarioIds, 3)
  rw [scenario_ids_append]
